import Mathlib

/-
Shallow embedding of the `planetary_fetch` package
(`src/planetary_fetch/planetary_fetch.py`).

Python strings are modelled as lists of character codes (`List Nat`);
`str.lower` / `str.upper` are modelled on the ASCII letter range, which covers
every character the program's naming conventions inspect.  Python's dynamic
values (the decoded JSON catalog response, keyword arguments) are modelled by
the inductive type `PyVal`, and raised exceptions by `Except` over explicit
error types.
-/

namespace PlanetaryFetch

/-- Character codes of a string literal: the `List Nat` model of a Python `str`. -/
def codes (s : String) : List Nat := s.data.map Char.toNat

/-- Python `str.lower` on one character code (ASCII range). -/
def lowerC (c : Nat) : Nat := if 65 ≤ c ∧ c ≤ 90 then c + 32 else c

/-- Python `str.upper` on one character code (ASCII range). -/
def upperC (c : Nat) : Nat := if 97 ≤ c ∧ c ≤ 122 then c - 32 else c

/-- Python `s.lower()`. -/
def lowerStr (s : List Nat) : List Nat := s.map lowerC

/-- Python `s.upper()`. -/
def upperStr (s : List Nat) : List Nat := s.map upperC

/-- Python `s.startswith(p)`. -/
def startsWith : List Nat → List Nat → Bool
  | _, [] => true
  | [], _ :: _ => false
  | c :: s, p :: ps => c == p && startsWith s ps

/-- Python `sub in s` (substring containment). -/
def containsSub (s sub : List Nat) : Bool :=
  s.tails.any (fun t => startsWith t sub)

/-- Python slice `s[a:b]` for `a ≤ b`, clamped at the end of the list exactly
as Python slicing is. -/
def pySlice (s : List Nat) (a b : Nat) : List Nat := (s.drop a).take (b - a)

/-- Index of the last `'.'` (code 46) in a list, as `str.rfind(".")` finds it. -/
def rfindDot : List Nat → Option Nat
  | [] => none
  | c :: cs =>
    match rfindDot cs with
    | some i => some (i + 1)
    | none => if c == 46 then some 0 else none

/-- `os.path.splitext(filename)[0]` for a plain filename (no path separator):
the part before the last dot, unless every character before that dot is itself
a dot (then no extension is split off). -/
def splitextStem (s : List Nat) : List Nat :=
  match rfindDot s with
  | none => s
  | some i => if (s.take i).any (fun c => c != 46) then s.take i else s

/-- `fnmatch.fnmatch` for the patterns the source uses, which contain only
literal characters and `*` (code 42); `*` matches any (possibly empty)
sequence and the whole string must be consumed. -/
def globMatch : List Nat → List Nat → Bool
  | [], s => s.isEmpty
  | c :: ps, s =>
    if c == 42 then s.tails.any (fun t => globMatch ps t)
    else
      match s with
      | [] => false
      | x :: s2 => c == x && globMatch ps s2

/-- The two `NotImplementedError` conditions `FileOrganizer` raises. -/
inductive OrganizeError where
  /-- `"<filename> does not match any case for storage"` -/
  | noStorageCase : OrganizeError
  /-- `"Only FRT, HRL and HRS are implemented"` -/
  | unknownInstrument : OrganizeError
deriving DecidableEq, Repr

/-- The suffix glob `"*_if*_trr3.*"`. -/
def patTrr3 : List Nat := codes "*_if*_trr3.*"

/-- The suffix glob `"*_de*_ddr1.*"`. -/
def patDdr1 : List Nat := codes "*_de*_ddr1.*"

/-- The common body of both observation-id branches of
`FileOrganizer._build_directory_path`: dispatch on the suffix glob of the
lowercased filename and assemble the directory segments.  The source writes
this block out twice (once per branch) with the two `sub`/`subsub` slices as
the only difference; the base directory the source joins in front is carried
separately by the callers that need it. -/
def suffix_dispatch (obs_type sub subsub filename : List Nat) :
    Except OrganizeError (List (List Nat)) :=
  if globMatch patTrr3 (lowerStr filename) then
    .ok [upperStr obs_type ++ upperStr sub,
         upperStr obs_type ++ upperStr subsub,
         codes "DATA"]
  else if globMatch patDdr1 (lowerStr filename) then
    .ok [upperStr obs_type ++ upperStr sub,
         upperStr obs_type ++ upperStr subsub,
         codes "DDR"]
  else
    .error .noStorageCase

/-- `FileOrganizer._build_directory_path(obs_type)` on `filename`, returning
the relative directory segments (the source prefixes `base_directory` when
joining the path). -/
def build_directory_path (obs_type filename : List Nat) :
    Except OrganizeError (List (List Nat)) :=
  if startsWith (lowerStr filename) (obs_type ++ codes "0000") then
    suffix_dispatch obs_type
      (pySlice (splitextStem filename) 7 9)
      (pySlice (splitextStem filename) 7 11) filename
  else if startsWith (lowerStr filename) (obs_type ++ codes "000") then
    suffix_dispatch obs_type
      (pySlice (splitextStem filename) 6 9)
      (pySlice (splitextStem filename) 6 11) filename
  else
    .error .noStorageCase

/-- `FileOrganizer.organize()` for a given `filename`: pick the instrument
prefix and classify.  Returns the relative directory segments; the
`os.makedirs` side effect creates directories only and never files, so it does
not affect the downloaded-file state modelled below. -/
def organize (filename : List Nat) : Except OrganizeError (List (List Nat)) :=
  if startsWith (lowerStr filename) (codes "frt") then
    build_directory_path (codes "frt") filename
  else if startsWith (lowerStr filename) (codes "hrl") then
    build_directory_path (codes "hrl") filename
  else if startsWith (lowerStr filename) (codes "hrs") then
    build_directory_path (codes "hrs") filename
  else
    .error .unknownInstrument

example :
    organize (codes "FRT00009876_07_IF123_TRR3.IMG") =
      .ok [codes "FRT98", codes "FRT9876", codes "DATA"] := by rfl

example :
    organize (codes "HRL000123_DE45_DDR1.LBL") =
      .ok [codes "HRL123", codes "HRL123_D", codes "DDR"] := by rfl

example : organize (codes "XYZ12345.IMG") = .error .unknownInstrument := by rfl

/-- Python values the program manipulates: decoded JSON and keyword
arguments.  A `dict` is an insertion-ordered association list, as Python
dicts are. -/
inductive PyVal where
  | str : List Nat → PyVal
  | num : Int → PyVal
  | bool : Bool → PyVal
  | list : List PyVal → PyVal
  | dict : List (List Nat × PyVal) → PyVal
deriving BEq

/-- The exceptions the parsing / construction paths can raise. -/
inductive PyErr where
  /-- `NoProductFoundException` -/
  | noProductFound : PyErr
  /-- `KeyError` (missing dict key) -/
  | keyError : PyErr
  /-- `TypeError` (subscripting / measuring / iterating a value that does not
  support it) -/
  | typeError : PyErr
  /-- `AttributeError` (calling `.lower()` on a non-string) -/
  | attributeError : PyErr
deriving DecidableEq, Repr

/-- Python `v[key]` for a string key: dict lookup (first binding, as Python
keys are unique), `KeyError` when absent, `TypeError` on any non-dict. -/
def pySubscript (v : PyVal) (key : List Nat) : Except PyErr PyVal :=
  match v with
  | .dict kvs =>
    match kvs.find? (fun kv => kv.1 == key) with
    | some kv => .ok kv.2
    | none => .error .keyError
  | _ => .error .typeError

/-- Python `len(v)` (used by the parser only for a log line, but evaluated
eagerly and so able to raise `TypeError`). -/
def pyLen : PyVal → Except PyErr Nat
  | .list xs => .ok xs.length
  | .dict kvs => .ok kvs.length
  | .str s => .ok s.length
  | _ => .error .typeError

/-- Python `for x in v`: a list yields its elements, a dict its keys (in
insertion order), a string its characters as one-character strings; anything
else raises `TypeError`. -/
def pyIter : PyVal → Except PyErr (List PyVal)
  | .list xs => .ok xs
  | .dict kvs => .ok (kvs.map (fun kv => .str kv.1))
  | .str s => .ok (s.map (fun c => .str [c]))
  | _ => .error .typeError

/-- Python `v == "No Products Found"`: true exactly for that string value. -/
def isNoProducts : PyVal → Bool
  | .str s => s == codes "No Products Found"
  | _ => false

/-- Is a URL kept by the parser's format filter:
`".lbl" in url.lower() or ".img" in url.lower()`. -/
def keep_url (u : List Nat) : Bool :=
  containsSub (lowerStr u) (codes ".lbl") || containsSub (lowerStr u) (codes ".img")

/-- The inner loop of `PdsRequest.parse_response` over one product's
`Product_file` entries: read each entry's `"URL"` field and append it to
`files0` when the format filter keeps it. -/
def extract_urls (files0 : List (List Nat)) :
    List PyVal → Except PyErr (List (List Nat))
  | [] => .ok files0
  | pf :: rest => do
    let url ← pySubscript pf (codes "URL")
    match url with
    | .str u =>
      if keep_url u then extract_urls (files0 ++ [u]) rest
      else extract_urls files0 rest
    | _ => .error .attributeError

/-- The outer loop of `PdsRequest.parse_response` over the products: append
each product whole to the metadata, then collect its filtered file URLs. -/
def parse_products (metadata0 : List PyVal) (files0 : List (List Nat)) :
    List PyVal → Except PyErr (List PyVal × List (List Nat))
  | [] => .ok (metadata0, files0)
  | product :: rest =>
    let metadata1 := metadata0 ++ [product]
    do
      let pfiles ← pySubscript product (codes "Product_files")
      let pfile ← pySubscript pfiles (codes "Product_file")
      let fitems ← pyIter pfile
      let files1 ← extract_urls files0 fitems
      parse_products metadata1 files1 rest

/-- `PdsRequest.parse_response(rjson)`: the metadata records and the filtered
download URLs, or the raised exception. -/
def parse_response (rjson : PyVal) : Except PyErr (List PyVal × List (List Nat)) := do
  let ode ← pySubscript rjson (codes "ODEResults")
  let products_val ← pySubscript ode (codes "Products")
  if isNoProducts products_val then
    .error .noProductFound
  else do
    let products ← pySubscript products_val (codes "Product")
    let _ ← pyLen products
    let items ← pyIter products
    parse_products [] [] items

/-- The two subscripts `rjson["ODEResults"]["Products"]` that lead to the
sentinel test in `parse_response`. -/
def get_products (rjson : PyVal) : Except PyErr PyVal := do
  let ode ← pySubscript rjson (codes "ODEResults")
  pySubscript ode (codes "Products")

/-- `PlanetaryFetchLib._save_dict`: `existing` is the decoded content of
`my_dict.json` when that file exists, `metadata` the new batch.  The result
is the full new content written back to the file (a rewrite, not an append).
Element equality is Python `==`, i.e. structural (`BEq`); the element type is
generic since the merge never inspects the records. -/
def save_dict {α : Type} [BEq α] (existing : Option (List α)) (metadata : List α) :
    List α :=
  match existing with
  | none => metadata
  | some ex =>
    metadata.foldl (fun acc item => if acc.contains item then acc else acc ++ [item]) ex

/-- `url.split("/")[-1]`: the filename derived from a URL. -/
def url_filename (url : List Nat) : List Nat :=
  (url.splitOn 47).getLastD []

/-- The full target path for one URL: `os.path.join(base, seg1, seg2, seg3,
filename)` modelled as the list of its segments. -/
def target_path (base_dir : List Nat) (segs : List (List Nat)) (filename : List Nat) :
    List (List Nat) :=
  base_dir :: segs ++ [filename]

/-- One step of `Files._url_to_download`'s loop: a URL whose classification
fails is skipped with a warning, one whose target file already exists
(`exists2` models `os.path.exists`) is skipped as complete, and the rest are
queued in order. -/
def url_step (exists2 : List (List Nat) → Bool) (base_dir : List Nat)
    (acc : List (List Nat)) (url : List Nat) : List (List Nat) :=
  match organize (url_filename url) with
  | .error _ => acc
  | .ok segs =>
    if exists2 (target_path base_dir segs (url_filename url)) then acc
    else acc ++ [url]

/-- `Files._url_to_download`: the sequential resume scan over the URL list. -/
def url_to_download (exists2 : List (List Nat) → Bool) (base_dir : List Nat)
    (urls : List (List Nat)) : List (List Nat) :=
  urls.foldl (url_step exists2 base_dir) []

/-- The filesystem effect of one `Files._download_url` task: the body is
fetched (`content url`), and written to the target path unless a file is
already there.  A task whose classification fails is skipped with a warning. -/
def download_url_fs (content : List Nat → List Nat) (base_dir : List Nat)
    (fs : List (List Nat) → Option (List Nat)) (url : List Nat) :
    List (List Nat) → Option (List Nat) :=
  match organize (url_filename url) with
  | .error _ => fs
  | .ok segs =>
    let p := target_path base_dir segs (url_filename url)
    if (fs p).isSome then fs
    else fun q => if q = p then some (content url) else fs q

/-- `Files.download()` observed at its boundary: `fs` maps an existing file's
path to its contents.  Returns the queued URLs (each of which is fetched from
the network exactly once), the completion count the final log line reports
(one per dispatched task), and the file state after all tasks ran.  The
worker tasks write to pairwise distinct, per-URL target paths, so the
sequential fold has the same final state as any interleaving. -/
def download (content : List Nat → List Nat) (base_dir : List Nat)
    (fs : List (List Nat) → Option (List Nat)) (urls : List (List Nat)) :
    List (List Nat) × Nat × (List (List Nat) → Option (List Nat)) :=
  let to_fetch := url_to_download (fun p => (fs p).isSome) base_dir urls
  (to_fetch, to_fetch.length, to_fetch.foldl (download_url_fs content base_dir) fs)

/-- `PlanetaryFetchLib.run(ids)` after the catalog query returned `rjson`:
parse; on `NoProductFoundException` log and return with nothing changed;
on success merge the metadata into the ledger and run the resume scan over
the returned URLs; any other parse failure propagates.  The result carries
the new ledger content, the URLs queued for download and the completion
count reported for the run. -/
def run_model (rjson : PyVal) (ledger : Option (List PyVal))
    (exists2 : List (List Nat) → Bool) (base_dir : List Nat) :
    Except PyErr (Option (List PyVal) × List (List Nat) × Nat) :=
  match parse_response rjson with
  | .ok (metadata, urls) =>
    let new_ledger := save_dict ledger metadata
    let to_fetch := url_to_download exists2 base_dir urls
    .ok (some new_ledger, to_fetch, to_fetch.length)
  | .error .noProductFound => .ok (ledger, [], 0)
  | .error e => .error e

/-- The configuration `PlanetaryFetchLib.__init__` stores on success.  The
constructor performs no type checking on the keyword values. -/
structure LibConfig where
  maxWorkers : PyVal
  disableTqdm : PyVal
  directory : List Nat
deriving BEq

/-- Keyword-argument lookup `kwargs["k"]`: `KeyError` when absent. -/
def kwargs_get (kwargs : List (List Nat × PyVal)) (key : List Nat) :
    Except PyErr PyVal :=
  match kwargs.find? (fun kv => kv.1 == key) with
  | some kv => .ok kv.2
  | none => .error .keyError

/-- `PlanetaryFetchLib.__init__(directory, **kwargs)`: reads
`kwargs["level"]` (for `_parse_level`, which itself never raises),
`kwargs["max_workers"]` and `kwargs["disable_tqdm"]`, in that order, with no
defaults. -/
def planetary_fetch_lib_init (directory : List Nat)
    (kwargs : List (List Nat × PyVal)) : Except PyErr LibConfig := do
  let _level ← kwargs_get kwargs (codes "level")
  let mw ← kwargs_get kwargs (codes "max_workers")
  let dt ← kwargs_get kwargs (codes "disable_tqdm")
  .ok ⟨mw, dt, directory⟩

/-- Has the resume scan nothing to do for `url`: its filename classifies
successfully and the classified target file already exists. -/
def already_complete (fs : List (List Nat) → Option (List Nat))
    (base_dir url : List Nat) : Bool :=
  match organize (url_filename url) with
  | .ok segs => (fs (target_path base_dir segs (url_filename url))).isSome
  | .error _ => false

/-- A catalog response whose `"Products"` value holds `v` under the
`"Product"` field — the documented shape of a non-empty catalog answer. -/
def wrap_products (v : PyVal) : PyVal :=
  .dict [(codes "ODEResults",
    .dict [(codes "Products", .dict [(codes "Product", v)])])]

/-- All URL strings of a sequence of file entries, unfiltered (used to
characterize the well-shaped inputs over which the parser's URL filter is
stated; it walks the entries exactly as the parser's inner loop does, but
keeps every URL). -/
def raw_url_list (acc : List (List Nat)) :
    List PyVal → Except PyErr (List (List Nat))
  | [] => .ok acc
  | pf :: rest => do
    let url ← pySubscript pf (codes "URL")
    match url with
    | .str u => raw_url_list (acc ++ [u]) rest
    | _ => .error .attributeError

/-- All URL strings of one product's `Product_files → Product_file` entries,
unfiltered; `.ok` exactly when the product has the documented shape. -/
def product_raw_urls (p : PyVal) : Except PyErr (List (List Nat)) := do
  let pfiles ← pySubscript p (codes "Product_files")
  let pfile ← pySubscript pfiles (codes "Product_file")
  let items ← pyIter pfile
  raw_url_list [] items

/-- A response whose `"Product"` field is one single product object (a
mapping), not a sequence — the single-product case of the documented
response shape. -/
def single_product_response : PyVal :=
  wrap_products (.dict
    [(codes "ipid", .str (codes "FRT00009876_07_IF123_TRR3")),
     (codes "Product_files", .dict [(codes "Product_file", .list [])])])

/-- A response whose `"Products"` value is the no-products sentinel. -/
def no_products_response : PyVal :=
  .dict [(codes "ODEResults",
    .dict [(codes "Products", .str (codes "No Products Found"))])]

/-- Concrete URL used by the download-idempotence witness. -/
def c6_url : List Nat := codes "https://host/data/FRT00009876_07_IF123_TRR3.IMG"

/-- The target path of `c6_url` under base directory `"out"`. -/
def c6_target : List (List Nat) :=
  [codes "out", codes "FRT98", codes "FRT9876", codes "DATA",
   codes "FRT00009876_07_IF123_TRR3.IMG"]

/-- A file state in which the target file of `c6_url` already exists. -/
def c6_fs (p : List (List Nat)) : Option (List Nat) :=
  if p = c6_target then some (codes "bytes") else none

/-- Concrete well-shaped product used by the parser witnesses: two file
entries, one `.img` URL (kept) and one `.txt` URL (dropped). -/
def c8_product : PyVal :=
  .dict [(codes "pdsid", .str (codes "FRT00009876_07_IF123_TRR3")),
         (codes "Product_files", .dict [(codes "Product_file", .list
           [.dict [(codes "URL", .str (codes "https://host/data/FRT00009876_07_IF123_TRR3.IMG"))],
            .dict [(codes "URL", .str (codes "https://host/data/readme.txt"))]])])]

/-- The raw URL list of `c8_product`. -/
def c8_urls : List (List Nat) :=
  [codes "https://host/data/FRT00009876_07_IF123_TRR3.IMG",
   codes "https://host/data/readme.txt"]

/-! ### Lemmas about the ledger merge (`_save_dict`) -/

/-- The merge fold never loses an element of its accumulator. -/
theorem save_fold_mem_mono {α : Type} [DecidableEq α] (A : List α) (acc : List α)
    (x : α) (hx : x ∈ acc) :
    x ∈ A.foldl (fun acc item => if acc.contains item then acc else acc ++ [item]) acc := by
  induction A generalizing acc with
  | nil => exact hx
  | cons a A ih =>
    simp only [List.foldl_cons]
    split
    · exact ih acc hx
    · exact ih (acc ++ [a]) (List.mem_append_left _ hx)

/-- Every element of the merged batch is in the merge fold's result. -/
theorem save_fold_mem_batch {α : Type} [DecidableEq α] (A : List α) (acc : List α)
    (x : α) (hx : x ∈ A) :
    x ∈ A.foldl (fun acc item => if acc.contains item then acc else acc ++ [item]) acc := by
  induction A generalizing acc with
  | nil => cases hx
  | cons a A ih =>
    simp only [List.foldl_cons]
    rcases List.mem_cons.mp hx with rfl | hx
    · split
      · next hc => exact save_fold_mem_mono A acc x (by simpa using hc)
      · exact save_fold_mem_mono A _ x (List.mem_append_right _ (List.mem_singleton.mpr rfl))
    · split
      · exact ih acc hx
      · exact ih (acc ++ [a]) hx

/-- Merging a batch every element of which is already present changes nothing. -/
theorem save_fold_id {α : Type} [DecidableEq α] (A : List α) (acc : List α)
    (h : ∀ x ∈ A, x ∈ acc) :
    A.foldl (fun acc item => if acc.contains item then acc else acc ++ [item]) acc = acc := by
  induction A with
  | nil => rfl
  | cons a A ih =>
    simp only [List.foldl_cons]
    rw [if_pos (by simpa using h a (List.mem_cons_self a A))]
    exact ih (fun x hx => h x (List.mem_cons_of_mem a hx))

/-- Merging a duplicate-free batch disjoint from the accumulator appends all
of it. -/
theorem save_fold_disjoint_len {α : Type} [DecidableEq α] (B : List α) (acc : List α)
    (hnd : B.Nodup) (hdisj : ∀ b ∈ B, b ∉ acc) :
    (B.foldl (fun acc item => if acc.contains item then acc else acc ++ [item]) acc).length
      = acc.length + B.length := by
  induction B generalizing acc with
  | nil => rfl
  | cons b B ih =>
    simp only [List.foldl_cons]
    rw [if_neg (by simp [hdisj b (List.mem_cons_self b B)])]
    rw [ih (acc ++ [b]) hnd.of_cons]
    · simp [Nat.add_assoc, Nat.add_comm 1 B.length]
    · intro x hx
      rw [List.mem_append]
      push_neg
      refine ⟨hdisj x (List.mem_cons_of_mem b hx), ?_⟩
      simp only [List.mem_singleton]
      rintro rfl
      exact (List.nodup_cons.mp hnd).1 hx

/-- The merge fold appends, after the accumulator, exactly batch elements
that were not already present. -/
theorem save_fold_append_shape {α : Type} [DecidableEq α] (A : List α) (acc : List α) :
    ∃ s, A.foldl (fun acc item => if acc.contains item then acc else acc ++ [item]) acc
        = acc ++ s ∧ ∀ x ∈ s, x ∈ A ∧ x ∉ acc := by
  induction A generalizing acc with
  | nil => exact ⟨[], by simp, by simp⟩
  | cons a A ih =>
    simp only [List.foldl_cons]
    split
    · obtain ⟨s, hs, hmem⟩ := ih acc
      exact ⟨s, hs, fun x hx =>
        ⟨List.mem_cons_of_mem a (hmem x hx).1, (hmem x hx).2⟩⟩
    · next hc =>
      obtain ⟨s, hs, hmem⟩ := ih (acc ++ [a])
      refine ⟨a :: s, by rw [hs]; simp, fun x hx => ?_⟩
      rcases List.mem_cons.mp hx with rfl | hx
      · exact ⟨List.mem_cons_self x A, by simpa using hc⟩
      · refine ⟨List.mem_cons_of_mem a (hmem x hx).1, fun hmem2 => (hmem x hx).2 ?_⟩
        exact List.mem_append_left _ hmem2

/-- Every element of the batch is in the merged ledger, whether or not the
persisted file existed. -/
theorem mem_save_dict_of_mem_batch {α : Type} [DecidableEq α]
    (st : Option (List α)) (A : List α) (x : α) (hx : x ∈ A) :
    x ∈ save_dict st A := by
  cases st with
  | none => exact hx
  | some ex => exact save_fold_mem_batch A ex x hx

/-! ### Claim theorems: ledger merge -/

/-- C9: when the persisted ledger file does not yet exist, the merge writes
the new batch exactly as given, with no deduplication — every record keeps
its exact multiplicity, so a batch containing two structurally-equal records
yields a ledger containing both copies.  Deduplication only ever runs
against a pre-existing ledger. -/
theorem c9_first_merge_no_dedup {α : Type} [DecidableEq α] (batch : List α) (a : α) :
    save_dict (none : Option (List α)) batch = batch ∧
    (save_dict (none : Option (List α)) batch).count a = batch.count a :=
  ⟨rfl, rfl⟩

/-- C5 counterexample: for the existing ledger `[0]` and the batch `[1, 1]`
(disjoint from the ledger but containing an internal duplicate), the merge
yields `[0, 1]`, so the element count grows by 1, not by `len(B) = 2` as the
claim states. -/
theorem c5_counterexample :
    save_dict (some [(0 : Nat)]) [1, 1] = [0, 1] ∧
    ([1, 1].all (fun b => !([(0 : Nat)].contains b))) = true ∧
    (save_dict (some [(0 : Nat)]) [1, 1]).length ≠ [(0 : Nat)].length + [1, 1].length := by
  refine ⟨by rfl, by decide, by decide⟩

/-- C5 (amended): re-merging the same batch leaves the ledger's element count
(indeed the ledger) unchanged; merging a *duplicate-free* batch disjoint from
an existing ledger grows the count by exactly the batch length; and against
an existing ledger the merge appends, after the old contents, exactly those
new records for which no structurally-equal element already existed (the
result being the full new file contents). -/
theorem c5_merge_amended {α : Type} [DecidableEq α] :
    (∀ (st : Option (List α)) (A : List α),
      (save_dict (some (save_dict st A)) A).length = (save_dict st A).length) ∧
    (∀ (L B : List α), B.Nodup → (∀ b ∈ B, b ∉ L) →
      (save_dict (some L) B).length = L.length + B.length) ∧
    (∀ (L A : List α), ∃ s, save_dict (some L) A = L ++ s ∧ ∀ x ∈ s, x ∈ A ∧ x ∉ L) := by
  refine ⟨fun st A => ?_, fun L B hnd hdisj => ?_, fun L A => ?_⟩
  · show (A.foldl _ (save_dict st A)).length = (save_dict st A).length
    rw [save_fold_id A (save_dict st A) (fun x hx => mem_save_dict_of_mem_batch st A x hx)]
  · exact save_fold_disjoint_len B L hnd hdisj
  · exact save_fold_append_shape A L

/-- C5 witness: merging the duplicate-free batch `[1, 2]`, disjoint from the
existing ledger `[0]`, grows the count from 1 to 3. -/
theorem c5_merge_amended_witness :
    (save_dict (some [(0 : Nat)]) [1, 2]).length = [(0 : Nat)].length + [1, 2].length :=
  c5_merge_amended.2.1 [0] [1, 2] (by decide) (by decide)

/-! ### Claim theorems: constructor -/

/-- C10: constructing the library with any of the keyword arguments `level`,
`max_workers` or `disable_tqdm` absent raises `KeyError`; no default is
applied at the library boundary. -/
theorem c10_init_missing_kwarg_keyerror (directory : List Nat)
    (kwargs : List (List Nat × PyVal))
    (h : (kwargs.find? (fun kv => kv.1 == codes "level")).isNone = true ∨
         (kwargs.find? (fun kv => kv.1 == codes "max_workers")).isNone = true ∨
         (kwargs.find? (fun kv => kv.1 == codes "disable_tqdm")).isNone = true) :
    planetary_fetch_lib_init directory kwargs = .error .keyError := by
  simp only [Option.isNone_iff_eq_none] at h
  rcases h with h | h | h
  · simp only [planetary_fetch_lib_init, kwargs_get, h]
    rfl
  · cases hl : kwargs.find? (fun kv => kv.1 == codes "level") with
    | none =>
      simp only [planetary_fetch_lib_init, kwargs_get, hl]
      rfl
    | some kv =>
      simp only [planetary_fetch_lib_init, kwargs_get, hl, h]
      rfl
  · cases hl : kwargs.find? (fun kv => kv.1 == codes "level") with
    | none =>
      simp only [planetary_fetch_lib_init, kwargs_get, hl]
      rfl
    | some kv =>
      cases hm : kwargs.find? (fun kv => kv.1 == codes "max_workers") with
      | none =>
        simp only [planetary_fetch_lib_init, kwargs_get, hl, hm]
        rfl
      | some kv2 =>
        simp only [planetary_fetch_lib_init, kwargs_get, hl, hm, h]
        rfl

/-- C10 witness: a kwargs mapping carrying `level` and `max_workers` but not
`disable_tqdm` makes the constructor raise `KeyError`. -/
theorem c10_init_missing_kwarg_keyerror_witness :
    planetary_fetch_lib_init (codes "out")
      [(codes "level", .str (codes "INFO")), (codes "max_workers", .num 3)]
      = .error .keyError :=
  c10_init_missing_kwarg_keyerror (codes "out")
    [(codes "level", .str (codes "INFO")), (codes "max_workers", .num 3)]
    (Or.inr (Or.inr (by decide)))

/-! ### Claim theorems: concrete classification (C1) and its counterexample -/

/-- C1 counterexample: on `"FRT00009876_07_IF123_TRR3.IMG"` the classifier
succeeds but returns the segments `["FRT98", "FRT9876", "DATA"]` — the stem
slices `[7:9]` and `[7:11]` are `"98"` and `"9876"` — not
`["FRT00", "FRT0000", "DATA"]` as the claim states. -/
theorem c1_counterexample :
    organize (codes "FRT00009876_07_IF123_TRR3.IMG") =
      .ok [codes "FRT98", codes "FRT9876", codes "DATA"] ∧
    [codes "FRT98", codes "FRT9876", codes "DATA"] ≠
      [codes "FRT00", codes "FRT0000", codes "DATA"] :=
  ⟨by rfl, by decide⟩

/-- C2 counterexample: the accepted short-form filename
`"HRL000123_DE45_DDR1.LBL"` classifies to `["HRL123", "HRL123_D", "DDR"]`,
whose second segment carries five characters after the prefix — its length
is not the prefix length plus four as the claim states. -/
theorem c2_counterexample :
    organize (codes "HRL000123_DE45_DDR1.LBL") =
      .ok [codes "HRL123", codes "HRL123_D", codes "DDR"] ∧
    (codes "HRL123_D").length ≠ (codes "HRL").length + 4 :=
  ⟨by rfl, by decide⟩

/-- C4 counterexample: a response whose `"Product"` field holds a single
(non-sequence) product object is not normalized to a one-element sequence;
the parser iterates the object's keys and raises `TypeError` on the first
key, so no one-element records list is produced. -/
theorem c4_counterexample :
    parse_response single_product_response = .error .typeError := by rfl

/-! ### Lemmas about `startsWith` and the classification cascade -/

/-- `startsWith` is exactly "is an initial segment of". -/
theorem startsWith_iff (s p : List Nat) :
    startsWith s p = true ↔ ∃ r, s = p ++ r := by
  induction p generalizing s with
  | nil =>
    simp [startsWith]
  | cons c ps ih =>
    cases s with
    | nil => simp [startsWith]
    | cons x s => simp [startsWith, ih, eq_comm (a := x)]

/-- A string starting with `q ++ r` starts with `q`. -/
theorem startsWith_of_append (s q r : List Nat)
    (h : startsWith s (q ++ r) = true) : startsWith s q = true := by
  rw [startsWith_iff] at h ⊢
  obtain ⟨t, ht⟩ := h
  exact ⟨r ++ t, by rw [ht, List.append_assoc]⟩

/-- For a filename whose lowercase form starts with one of the three known
instrument prefixes, `organize` dispatches to that prefix's branch of
`_build_directory_path`. -/
theorem organize_eq_build (f p : List Nat)
    (hp : p = codes "frt" ∨ p = codes "hrl" ∨ p = codes "hrs")
    (hst : startsWith (lowerStr f) p = true) :
    organize f = build_directory_path p f := by
  rcases hp with rfl | rfl | rfl
  · simp [organize, hst]
  · obtain ⟨r, hr⟩ := (startsWith_iff _ _).mp hst
    have h1 : startsWith (lowerStr f) (codes "frt") = false := by rw [hr]; rfl
    simp [organize, h1, hst]
  · obtain ⟨r, hr⟩ := (startsWith_iff _ _).mp hst
    have h1 : startsWith (lowerStr f) (codes "frt") = false := by rw [hr]; rfl
    have h2 : startsWith (lowerStr f) (codes "hrl") = false := by rw [hr]; rfl
    simp [organize, h1, h2, hst]

/-! ### Claim theorems: classification cascade (C3) -/

/-- C3: for a filename with a recognized instrument prefix, the long form
(`<prefix>0000`, slices `[7:9]` and `[7:11]` of the extension-stripped stem)
is tried first; otherwise the short form (`<prefix>000`, slices `[6:9]` and
`[6:11]`); if neither prefix pattern matches, classification fails. -/
theorem c3_classification_cascade (f p : List Nat)
    (hp : p = codes "frt" ∨ p = codes "hrl" ∨ p = codes "hrs")
    (hst : startsWith (lowerStr f) p = true) :
    (startsWith (lowerStr f) (p ++ codes "0000") = true →
      organize f = suffix_dispatch p (pySlice (splitextStem f) 7 9)
        (pySlice (splitextStem f) 7 11) f) ∧
    (startsWith (lowerStr f) (p ++ codes "0000") = false →
      startsWith (lowerStr f) (p ++ codes "000") = true →
      organize f = suffix_dispatch p (pySlice (splitextStem f) 6 9)
        (pySlice (splitextStem f) 6 11) f) ∧
    (startsWith (lowerStr f) (p ++ codes "000") = false →
      organize f = .error .noStorageCase) := by
  rw [organize_eq_build f p hp hst]
  refine ⟨fun hlong => ?_, fun hlongF hshort => ?_, fun hshortF => ?_⟩
  · simp [build_directory_path, hlong]
  · simp [build_directory_path, hlongF, hshort]
  · have hlongF : startsWith (lowerStr f) (p ++ codes "0000") = false := by
      cases hcase : startsWith (lowerStr f) (p ++ codes "0000") with
      | false => rfl
      | true =>
        have : p ++ codes "0000" = (p ++ codes "000") ++ [48] := by
          rw [List.append_assoc]
          rfl
        rw [this] at hcase
        rw [startsWith_of_append _ _ _ hcase] at hshortF
        cases hshortF
    simp [build_directory_path, hlongF, hshortF]

/-- C3 witness: the long-form filename `"FRT00009876_07_IF123_TRR3.IMG"`. -/
theorem c3_classification_cascade_witness :
    organize (codes "FRT00009876_07_IF123_TRR3.IMG") =
      suffix_dispatch (codes "frt")
        (pySlice (splitextStem (codes "FRT00009876_07_IF123_TRR3.IMG")) 7 9)
        (pySlice (splitextStem (codes "FRT00009876_07_IF123_TRR3.IMG")) 7 11)
        (codes "FRT00009876_07_IF123_TRR3.IMG") :=
  (c3_classification_cascade (codes "FRT00009876_07_IF123_TRR3.IMG") (codes "frt")
    (Or.inl rfl) (by decide)).1 (by decide)

/-! ### Case-invariance of the classifier -/

/-- Characters with equal lowercases have equal uppercases. -/
theorem upperC_congr {a b : Nat} (h : lowerC a = lowerC b) : upperC a = upperC b := by
  simp only [lowerC] at h
  simp only [upperC]
  split_ifs at h ⊢ <;> omega

/-- Lowercasing preserves being (or not being) the dot character. -/
theorem lowerC_dot_congr {a b : Nat} (h : lowerC a = lowerC b) : a = 46 ↔ b = 46 := by
  simp only [lowerC] at h
  split_ifs at h <;> omega

/-- Only the dot lowercases to the dot. -/
theorem lowerC_eq_dot {a : Nat} (h : lowerC a = 46) : a = 46 := by
  simp only [lowerC] at h
  split_ifs at h <;> omega

/-- Strings with equal lowercases have equal uppercases. -/
theorem upperStr_congr {x y : List Nat} (h : lowerStr x = lowerStr y) :
    upperStr x = upperStr y := by
  induction x generalizing y with
  | nil =>
    cases y with
    | nil => rfl
    | cons b ys => simp [lowerStr] at h
  | cons a xs ih =>
    cases y with
    | nil => simp [lowerStr] at h
    | cons b ys =>
      simp only [lowerStr, List.map_cons, List.cons.injEq] at h
      have h2 := ih (y := ys) h.2
      simp only [upperStr, List.map_cons, List.cons.injEq] at h2 ⊢
      exact ⟨upperC_congr h.1, h2⟩

/-- Strings with equal lowercases have dots at the same positions
(`any`-form, used for the `splitext` guard). -/
theorem any_ne_dot_congr {x y : List Nat} (h : lowerStr x = lowerStr y) :
    (x.any (fun c => c != 46)) = (y.any (fun c => c != 46)) := by
  induction x generalizing y with
  | nil =>
    cases y with
    | nil => rfl
    | cons b ys => simp [lowerStr] at h
  | cons a xs ih =>
    cases y with
    | nil => simp [lowerStr] at h
    | cons b ys =>
      simp only [lowerStr, List.map_cons, List.cons.injEq] at h
      have hd := lowerC_dot_congr h.1
      have hne : (a != 46) = (b != 46) := by
        by_cases ha : a = 46
        · simp [ha, hd.mp ha]
        · have hb' : ¬b = 46 := fun hb2 => ha (hd.mpr hb2)
          have h1 : (a != 46) = true := by simp [ha]
          have h2 : (b != 46) = true := by simp [hb']
          rw [h1, h2]
      simp only [List.any_cons, hne, ih (y := ys) h.2]

/-- Strings with equal lowercases have the same last-dot position. -/
theorem rfindDot_congr {x y : List Nat} (h : lowerStr x = lowerStr y) :
    rfindDot x = rfindDot y := by
  induction x generalizing y with
  | nil =>
    cases y with
    | nil => rfl
    | cons b ys => simp [lowerStr] at h
  | cons a xs ih =>
    cases y with
    | nil => simp [lowerStr] at h
    | cons b ys =>
      simp only [lowerStr, List.map_cons, List.cons.injEq] at h
      have htail := ih (y := ys) h.2
      have hd := lowerC_dot_congr h.1
      have hb : (a == 46) = (b == 46) := by
        by_cases ha : a = 46
        · simp [ha, hd.mp ha]
        · have hb' : ¬b = 46 := fun hb2 => ha (hd.mpr hb2)
          simp [ha, hb']
      simp only [rfindDot, htail, hb]

/-- Extension stripping commutes with lowercasing equality. -/
theorem splitextStem_lower_congr {x y : List Nat} (h : lowerStr x = lowerStr y) :
    lowerStr (splitextStem x) = lowerStr (splitextStem y) := by
  have hlen : x.length = y.length := by
    have := congrArg List.length h
    simpa [lowerStr] using this
  unfold splitextStem
  rw [rfindDot_congr h]
  cases hr : rfindDot y with
  | none => exact h
  | some i =>
    have htake : lowerStr (x.take i) = lowerStr (y.take i) := by
      simp only [lowerStr] at h ⊢
      rw [List.map_take, List.map_take, h]
    simp only [any_ne_dot_congr htake]
    split
    · exact htake
    · exact h

/-- The suffix dispatch only looks at the lowercased filename and the
uppercased slices. -/
theorem suffix_dispatch_congr {obs f g s1f s1g s2f s2g : List Nat}
    (hf : lowerStr f = lowerStr g)
    (h1 : lowerStr s1f = lowerStr s1g) (h2 : lowerStr s2f = lowerStr s2g) :
    suffix_dispatch obs s1f s2f f = suffix_dispatch obs s1g s2g g := by
  unfold suffix_dispatch
  rw [hf, upperStr_congr h1, upperStr_congr h2]

/-- `_build_directory_path` is invariant under case changes of the filename. -/
theorem build_directory_path_congr {p f g : List Nat}
    (hf : lowerStr f = lowerStr g) :
    build_directory_path p f = build_directory_path p g := by
  have hstem := splitextStem_lower_congr hf
  have hsl : ∀ a b, lowerStr (pySlice (splitextStem f) a b)
      = lowerStr (pySlice (splitextStem g) a b) := by
    intro a b
    simp only [pySlice, lowerStr] at hstem ⊢
    rw [List.map_take, List.map_take, List.map_drop, List.map_drop, hstem]
  unfold build_directory_path
  rw [hf]
  split
  · exact suffix_dispatch_congr hf (hsl 7 9) (hsl 7 11)
  · split
    · exact suffix_dispatch_congr hf (hsl 6 9) (hsl 6 11)
    · rfl

/-- `organize` is invariant under case changes of the filename. -/
theorem organize_case_invariant {f g : List Nat}
    (hf : lowerStr f = lowerStr g) : organize f = organize g := by
  unfold organize
  rw [hf]
  split
  · exact build_directory_path_congr hf
  · split
    · exact build_directory_path_congr hf
    · split
      · exact build_directory_path_congr hf
      · rfl

/-! ### Claim theorem: C1 (amended) -/

/-- C1 (amended): `"FRT00009876_07_IF123_TRR3.IMG"` classifies successfully
to the segments `["FRT98", "FRT9876", "DATA"]`, and every case variant of
the filename produces that same uppercase output. -/
theorem c1_classify_amended :
    organize (codes "FRT00009876_07_IF123_TRR3.IMG") =
      .ok [codes "FRT98", codes "FRT9876", codes "DATA"] ∧
    ∀ f, lowerStr f = lowerStr (codes "FRT00009876_07_IF123_TRR3.IMG") →
      organize f = .ok [codes "FRT98", codes "FRT9876", codes "DATA"] :=
  ⟨by rfl, fun _ h => (organize_case_invariant h).trans (by rfl)⟩

/-- C1 witness: the all-lowercase variant produces the same uppercase
segments. -/
theorem c1_classify_amended_witness :
    organize (codes "frt00009876_07_if123_trr3.img") =
      .ok [codes "FRT98", codes "FRT9876", codes "DATA"] :=
  c1_classify_amended.2 (codes "frt00009876_07_if123_trr3.img") (by decide)

/-! ### Lemmas about the parser -/

theorem except_bind_ok {ε α β : Type} (a : α) (f : α → Except ε β) :
    ((Except.ok a : Except ε α) >>= f) = f a := rfl

theorem except_bind_err {ε α β : Type} (e : ε) (f : α → Except ε β) :
    ((Except.error e : Except ε α) >>= f) = Except.error e := rfl

/-- The URL-collecting loop threads its accumulator by appending. -/
theorem extract_urls_shift (items : List PyVal) (a : List (List Nat)) :
    extract_urls a items = Except.map (fun t => a ++ t) (extract_urls [] items) := by
  induction items generalizing a with
  | nil => simp [extract_urls, Except.map]
  | cons pf rest ih =>
    simp only [extract_urls]
    cases hu : pySubscript pf (codes "URL") with
    | error e => rw [except_bind_err, except_bind_err, Except.map]
    | ok url =>
      rw [except_bind_ok, except_bind_ok]
      cases url with
      | str u =>
        simp only []
        by_cases hk : keep_url u = true
        · rw [if_pos hk, if_pos hk, ih (a ++ [u]), ih ([] ++ [u])]
          cases extract_urls [] rest <;> simp [Except.map, List.append_assoc]
        · rw [if_neg hk, if_neg hk, ih a]
      | num n => rfl
      | bool b => rfl
      | list l => rfl
      | dict d => rfl

/-- The raw-URL loop threads its accumulator by appending. -/
theorem raw_url_list_shift (items : List PyVal) (a : List (List Nat)) :
    raw_url_list a items = Except.map (fun t => a ++ t) (raw_url_list [] items) := by
  induction items generalizing a with
  | nil => simp [raw_url_list, Except.map]
  | cons pf rest ih =>
    simp only [raw_url_list]
    cases hu : pySubscript pf (codes "URL") with
    | error e => rw [except_bind_err, except_bind_err, Except.map]
    | ok url =>
      rw [except_bind_ok, except_bind_ok]
      cases url with
      | str u =>
        simp only []
        rw [ih (a ++ [u]), ih ([] ++ [u])]
        cases raw_url_list [] rest <;> simp [Except.map, List.append_assoc]
      | num n => rfl
      | bool b => rfl
      | list l => rfl
      | dict d => rfl

/-- On file entries whose raw URL list is `us`, the parser's inner loop keeps
exactly `us.filter keep_url`. -/
theorem extract_of_raw (items : List PyVal) (us : List (List Nat))
    (h : raw_url_list [] items = .ok us) :
    extract_urls [] items = .ok (us.filter keep_url) := by
  induction items generalizing us with
  | nil =>
    simp only [raw_url_list, Except.ok.injEq] at h
    subst h
    simp [extract_urls]
  | cons pf rest ih =>
    simp only [raw_url_list] at h
    cases hu : pySubscript pf (codes "URL") with
    | error e => rw [hu, except_bind_err] at h; cases h
    | ok url =>
      rw [hu, except_bind_ok] at h
      cases url with
      | str u =>
        simp only [] at h
        rw [raw_url_list_shift] at h
        cases hr : raw_url_list [] rest with
        | error e => rw [hr] at h; simp [Except.map] at h
        | ok t =>
          rw [hr] at h
          simp only [Except.map, List.nil_append, Except.ok.injEq] at h
          subst h
          have hext := ih t hr
          simp only [extract_urls, hu, except_bind_ok]
          by_cases hk : keep_url u = true
          · rw [if_pos hk, extract_urls_shift, hext]
            simp [Except.map, List.filter_cons, hk]
          · rw [if_neg hk, hext]
            have : keep_url u = false := by
              cases hkk : keep_url u
              · rfl
              · exact absurd hkk hk
            simp [List.filter_cons, this]
      | num n => simp only [] at h; cases h
      | bool b => simp only [] at h; cases h
      | list l => simp only [] at h; cases h
      | dict d => simp only [] at h; cases h

/-- The parser's outer loop appends every product whole to the records and
the kept URLs of each product, in catalog order, to the URL list. -/
theorem parse_products_spec (ps : List PyVal) (uss : List (List (List Nat)))
    (h : List.Forall₂ (fun p us => product_raw_urls p = .ok us) ps uss)
    (m0 : List PyVal) (f0 : List (List Nat)) :
    parse_products m0 f0 ps =
      .ok (m0 ++ ps, f0 ++ (uss.map (fun us => us.filter keep_url)).flatten) := by
  induction h generalizing m0 f0 with
  | nil => simp [parse_products]
  | @cons p us ps2 uss2 hpu htail ih =>
    simp only [product_raw_urls] at hpu
    cases h1 : pySubscript p (codes "Product_files") with
    | error e => rw [h1, except_bind_err] at hpu; cases hpu
    | ok pfiles =>
      rw [h1, except_bind_ok] at hpu
      cases h2 : pySubscript pfiles (codes "Product_file") with
      | error e => rw [h2, except_bind_err] at hpu; cases hpu
      | ok pfile =>
        rw [h2, except_bind_ok] at hpu
        cases h3 : pyIter pfile with
        | error e => rw [h3, except_bind_err] at hpu; cases hpu
        | ok items =>
          rw [h3, except_bind_ok] at hpu
          have hext : extract_urls f0 items = .ok (f0 ++ us.filter keep_url) := by
            rw [extract_urls_shift, extract_of_raw items us hpu]
            rfl
          simp only [parse_products, h1, h2, h3, hext, except_bind_ok]
          rw [ih]
          simp [List.append_assoc]

/-- Subscripting can only raise `KeyError` or `TypeError`. -/
theorem pySubscript_ne_npf (v : PyVal) (k : List Nat) :
    pySubscript v k ≠ .error .noProductFound := by
  cases v with
  | dict kvs =>
    simp only [pySubscript]
    cases kvs.find? (fun kv => kv.1 == k) <;> simp
  | str s => simp [pySubscript]
  | num n => simp [pySubscript]
  | bool b => simp [pySubscript]
  | list l => simp [pySubscript]

/-- `len` can only raise `TypeError`. -/
theorem pyLen_ne_npf (v : PyVal) : pyLen v ≠ .error .noProductFound := by
  cases v <;> simp [pyLen]

/-- Iteration can only raise `TypeError`. -/
theorem pyIter_ne_npf (v : PyVal) : pyIter v ≠ .error .noProductFound := by
  cases v <;> simp [pyIter]

/-- The parser's inner loop never raises `NoProductFoundException`. -/
theorem extract_urls_ne_npf (items : List PyVal) (acc : List (List Nat)) :
    extract_urls acc items ≠ .error .noProductFound := by
  induction items generalizing acc with
  | nil => simp [extract_urls]
  | cons pf rest ih =>
    simp only [extract_urls]
    cases hu : pySubscript pf (codes "URL") with
    | error e =>
      rw [except_bind_err]
      intro hc
      rw [Except.error.injEq] at hc
      exact pySubscript_ne_npf pf (codes "URL") (by rw [hu, hc])
    | ok url =>
      rw [except_bind_ok]
      cases url with
      | str u =>
        simp only []
        split
        · exact ih (acc ++ [u])
        · exact ih acc
      | num n => simp
      | bool b => simp
      | list l => simp
      | dict d => simp

/-- The parser's outer loop never raises `NoProductFoundException`. -/
theorem parse_products_ne_npf (items : List PyVal) (m0 : List PyVal)
    (f0 : List (List Nat)) :
    parse_products m0 f0 items ≠ .error .noProductFound := by
  induction items generalizing m0 f0 with
  | nil => simp [parse_products]
  | cons product rest ih =>
    simp only [parse_products]
    cases h1 : pySubscript product (codes "Product_files") with
    | error e =>
      rw [except_bind_err]
      intro hc
      rw [Except.error.injEq] at hc
      exact pySubscript_ne_npf product (codes "Product_files") (by rw [h1, hc])
    | ok pfiles =>
      rw [except_bind_ok]
      cases h2 : pySubscript pfiles (codes "Product_file") with
      | error e =>
        rw [except_bind_err]
        intro hc
        rw [Except.error.injEq] at hc
        exact pySubscript_ne_npf pfiles (codes "Product_file") (by rw [h2, hc])
      | ok pfile =>
        rw [except_bind_ok]
        cases h3 : pyIter pfile with
        | error e =>
          rw [except_bind_err]
          intro hc
          rw [Except.error.injEq] at hc
          exact pyIter_ne_npf pfile (by rw [h3, hc])
        | ok fitems =>
          rw [except_bind_ok]
          cases h4 : extract_urls f0 fitems with
          | error e =>
            rw [except_bind_err]
            intro hc
            rw [Except.error.injEq] at hc
            exact extract_urls_ne_npf fitems f0 (by rw [h4, hc])
          | ok files1 =>
            rw [except_bind_ok]
            exact ih (m0 ++ [product]) files1

/-- The non-sentinel tail of `parse_response` never raises
`NoProductFoundException`. -/
theorem parse_rest_ne_npf (pv : PyVal) :
    (do
      let products ← pySubscript pv (codes "Product")
      let _ ← pyLen products
      let items ← pyIter products
      parse_products [] [] items : Except PyErr (List PyVal × List (List Nat)))
      ≠ .error .noProductFound := by
  cases h1 : pySubscript pv (codes "Product") with
  | error e =>
    rw [except_bind_err]
    intro hc
    rw [Except.error.injEq] at hc
    exact pySubscript_ne_npf pv (codes "Product") (by rw [h1, hc])
  | ok products =>
    rw [except_bind_ok]
    cases h2 : pyLen products with
    | error e =>
      rw [except_bind_err]
      intro hc
      rw [Except.error.injEq] at hc
      exact pyLen_ne_npf products (by rw [h2, hc])
    | ok n =>
      rw [except_bind_ok]
      cases h3 : pyIter products with
      | error e =>
        rw [except_bind_err]
        intro hc
        rw [Except.error.injEq] at hc
        exact pyIter_ne_npf products (by rw [h3, hc])
      | ok items =>
        rw [except_bind_ok]
        exact parse_products_ne_npf items [] []

/-! ### Claim theorems: parser and orchestrator -/

/-- C4 (amended): the parser does not normalize a single product object into
a one-element sequence.  A response whose `Product` field is already a
one-element sequence holding a well-shaped product yields a one-element
records list containing that product whole; a response whose `Product` field
is a single non-empty product object is iterated by its keys and raises
`TypeError`. -/
theorem c4_parse_amended :
    (∀ (p : PyVal) (us : List (List Nat)), product_raw_urls p = .ok us →
      parse_response (wrap_products (.list [p])) = .ok ([p], us.filter keep_url)) ∧
    (∀ kvs : List (List Nat × PyVal), kvs ≠ [] →
      parse_response (wrap_products (.dict kvs)) = .error .typeError) := by
  constructor
  · intro p us h
    have hred : parse_response (wrap_products (.list [p])) = parse_products [] [] [p] := rfl
    rw [hred, parse_products_spec [p] [us] (List.Forall₂.cons h List.Forall₂.nil) [] []]
    simp
  · intro kvs hk
    cases kvs with
    | nil => cases hk rfl
    | cons kv rest => rfl

/-- C4 witness: a one-element product sequence parses to a one-element
records list. -/
theorem c4_parse_amended_witness :
    parse_response (wrap_products (.list [c8_product])) =
      .ok ([c8_product], c8_urls.filter keep_url) :=
  c4_parse_amended.1 c8_product c8_urls (by rfl)

/-- C8: each product is appended whole to the records list, and a file
entry's URL is kept iff its lowercased form contains `".lbl"` or `".img"`
(everything else is dropped), in catalog order with no deduplication. -/
theorem c8_parse_url_filter (ps : List PyVal) (uss : List (List (List Nat)))
    (h : List.Forall₂ (fun p us => product_raw_urls p = .ok us) ps uss) :
    parse_response (wrap_products (.list ps)) =
      .ok (ps, (uss.map (fun us => us.filter keep_url)).flatten) := by
  have hred : parse_response (wrap_products (.list ps)) = parse_products [] [] ps := rfl
  rw [hred, parse_products_spec ps uss h [] []]
  simp

/-- C8 witness: one product with one `.img` URL (kept) and one `.txt` URL
(dropped). -/
theorem c8_parse_url_filter_witness :
    parse_response (wrap_products (.list [c8_product])) =
      .ok ([c8_product], ([c8_urls].map (fun us => us.filter keep_url)).flatten) :=
  c8_parse_url_filter [c8_product] [c8_urls]
    (List.Forall₂.cons (by rfl) List.Forall₂.nil)

/-- C7: `parse_response` raises `NoProductFoundException` iff the response's
`Products` value is the sentinel string (yielding no records and no URLs);
the orchestrator's `run` turns exactly that error into a successful empty
run (unchanged ledger, nothing fetched, count 0), while every other parse
failure propagates. -/
theorem c7_no_product_found :
    (∀ rjson : PyVal, parse_response rjson = .error .noProductFound ↔
      ∃ v, get_products rjson = .ok v ∧ isNoProducts v = true) ∧
    (∀ (rjson : PyVal) (ledger : Option (List PyVal))
      (exists2 : List (List Nat) → Bool) (base_dir : List Nat),
      parse_response rjson = .error .noProductFound →
      run_model rjson ledger exists2 base_dir = .ok (ledger, [], 0)) ∧
    (∀ (rjson : PyVal) (ledger : Option (List PyVal))
      (exists2 : List (List Nat) → Bool) (base_dir : List Nat) (e : PyErr),
      parse_response rjson = .error e → e ≠ .noProductFound →
      run_model rjson ledger exists2 base_dir = .error e) := by
  refine ⟨fun rjson => ?_, fun rjson L ex bd h => ?_, fun rjson L ex bd e h hne => ?_⟩
  · simp only [parse_response, get_products]
    cases h1 : pySubscript rjson (codes "ODEResults") with
    | error e =>
      rw [except_bind_err, except_bind_err]
      constructor
      · intro hc
        rw [Except.error.injEq] at hc
        exact absurd (by rw [h1, hc]) (pySubscript_ne_npf rjson (codes "ODEResults"))
      · rintro ⟨v, hv, _⟩
        cases hv
    | ok ode =>
      rw [except_bind_ok, except_bind_ok]
      cases h2 : pySubscript ode (codes "Products") with
      | error e =>
        rw [except_bind_err]
        constructor
        · intro hc
          rw [Except.error.injEq] at hc
          exact absurd (by rw [h2, hc]) (pySubscript_ne_npf ode (codes "Products"))
        · rintro ⟨v, hv, _⟩
          cases hv
      | ok pv =>
        rw [except_bind_ok]
        by_cases hnp : isNoProducts pv = true
        · rw [if_pos hnp]
          exact ⟨fun _ => ⟨pv, rfl, hnp⟩, fun _ => rfl⟩
        · rw [if_neg hnp]
          constructor
          · intro hc
            exact absurd hc (parse_rest_ne_npf pv)
          · rintro ⟨v, hv, hnp2⟩
            rw [Except.ok.injEq] at hv
            subst hv
            exact absurd hnp2 hnp
  · unfold run_model
    rw [h]
  · unfold run_model
    rw [h]
    cases e with
    | noProductFound => exact absurd rfl hne
    | keyError => rfl
    | typeError => rfl
    | attributeError => rfl

/-- C7 witness: the sentinel response makes the run succeed with an
unchanged ledger and no downloads. -/
theorem c7_no_product_found_witness :
    run_model no_products_response none (fun _ => false) [] = .ok (none, [], 0) :=
  c7_no_product_found.2.1 no_products_response none (fun _ => false) [] (by rfl)

/-! ### Claim theorems: download idempotence (C6) -/

/-- A URL whose target file already exists contributes nothing to the scan. -/
theorem url_step_complete (fs : List (List Nat) → Option (List Nat))
    (base_dir : List Nat) (acc : List (List Nat)) (u : List Nat)
    (hu : already_complete fs base_dir u = true) :
    url_step (fun p => (fs p).isSome) base_dir acc u = acc := by
  unfold already_complete at hu
  unfold url_step
  cases ho : organize (url_filename u) with
  | error e =>
    rw [ho] at hu
  | ok segs =>
    rw [ho] at hu
    simp only [] at hu
    simp [hu]

/-- The resume scan queues nothing when every URL's target file exists. -/
theorem url_to_download_all_complete (fs : List (List Nat) → Option (List Nat))
    (base_dir : List Nat) (urls : List (List Nat))
    (h : ∀ u ∈ urls, already_complete fs base_dir u = true) :
    url_to_download (fun p => (fs p).isSome) base_dir urls = [] := by
  unfold url_to_download
  have H : ∀ urls2 : List (List Nat),
      (∀ u ∈ urls2, already_complete fs base_dir u = true) →
      ∀ acc : List (List Nat),
        urls2.foldl (url_step (fun p => (fs p).isSome) base_dir) acc = acc := by
    intro urls2
    induction urls2 with
    | nil => intro _ acc; rfl
    | cons u rest ih =>
      intro h2 acc
      simp only [List.foldl_cons]
      rw [url_step_complete fs base_dir acc u (h2 u (List.mem_cons_self u rest))]
      exact ih (fun x hx => h2 x (List.mem_cons_of_mem u hx)) acc
  exact H urls h []

/-- C6: when every URL's classified target file already exists, the download
phase fetches nothing from the network, reports a completion count of 0, and
leaves the file state untouched. -/
theorem c6_download_idempotent (content : List Nat → List Nat)
    (base_dir : List Nat) (fs : List (List Nat) → Option (List Nat))
    (urls : List (List Nat))
    (h : urls.all (fun url => already_complete fs base_dir url) = true) :
    download content base_dir fs urls = ([], 0, fs) := by
  have h2 : ∀ u ∈ urls, already_complete fs base_dir u = true := by
    simpa [List.all_eq_true] using h
  have hempty := url_to_download_all_complete fs base_dir urls h2
  simp only [download, hempty]
  rfl

/-- C6 witness: one URL whose classified target file is present. -/
theorem c6_download_idempotent_witness :
    download (fun _ => []) (codes "out") c6_fs [c6_url] = ([], 0, c6_fs) :=
  c6_download_idempotent (fun _ => []) (codes "out") c6_fs [c6_url] (by decide)

/-! ### Lemmas about the glob matcher and stem lengths (for C2) -/

/-- A leading `*` matches any split of the string. -/
theorem globMatch_star_iff (ps s : List Nat) :
    globMatch (42 :: ps) s = true ↔ ∃ a b, s = a ++ b ∧ globMatch ps b = true := by
  have h42 : ((42 : Nat) == 42) = true := rfl
  simp only [globMatch, h42, if_true]
  rw [List.any_eq_true]
  constructor
  · rintro ⟨t, htmem, hmatch⟩
    obtain ⟨a, ha⟩ := (List.mem_tails t s).mp htmem
    exact ⟨a, t, ha.symm, hmatch⟩
  · rintro ⟨a, b, rfl, hb⟩
    exact ⟨b, (List.mem_tails b (a ++ b)).mpr (List.suffix_append a b), hb⟩

/-- A literal (star-free) pattern segment consumes exactly itself. -/
theorem globMatch_lit_append (L ps : List Nat) (hL : ∀ c ∈ L, c ≠ 42) (s : List Nat) :
    globMatch (L ++ ps) s = true ↔ ∃ t, s = L ++ t ∧ globMatch ps t = true := by
  induction L generalizing s with
  | nil => simp
  | cons c L ih =>
    have hc : c ≠ 42 := hL c (List.mem_cons_self c L)
    cases s with
    | nil =>
      simp only [List.cons_append, globMatch]
      rw [if_neg (by simp [hc])]
      simp
    | cons x s2 =>
      simp only [List.cons_append, globMatch]
      rw [if_neg (by simp [hc])]
      simp only [Bool.and_eq_true, beq_iff_eq, List.append_eq]
      rw [ih (fun d hd => hL d (List.mem_cons_of_mem c hd))]
      constructor
      · rintro ⟨rfl, t, rfl, hm⟩
        exact ⟨t, rfl, hm⟩
      · rintro ⟨t, ht, hm⟩
        injection ht with h1 h2
        exact ⟨h1.symm, t, h2, hm⟩

/-- A sole `*` matches everything. -/
theorem globMatch_star_any (w : List Nat) : globMatch [42] w = true := by
  rw [globMatch_star_iff]
  exact ⟨w, [], by simp, by simp [globMatch]⟩

/-- Matching `*<L1>*<L2>*` decomposes the string around the two literal
segments. -/
theorem glob_decomp {L1 L2 s : List Nat}
    (hL1 : ∀ c ∈ L1, c ≠ 42) (hL2 : ∀ c ∈ L2, c ≠ 42)
    (h : globMatch (42 :: (L1 ++ (42 :: (L2 ++ [42])))) s = true) :
    ∃ a b c2, s = a ++ L1 ++ b ++ L2 ++ c2 := by
  rw [globMatch_star_iff] at h
  obtain ⟨a, b0, rfl, h⟩ := h
  rw [globMatch_lit_append L1 _ hL1] at h
  obtain ⟨t, rfl, h⟩ := h
  rw [globMatch_star_iff] at h
  obtain ⟨u, v, rfl, h⟩ := h
  rw [globMatch_lit_append L2 [42] hL2] at h
  obtain ⟨w, rfl, _⟩ := h
  exact ⟨a, u, w, by simp [List.append_assoc]⟩

/-- If an element outside `q` sits at position `a.length` of `q ++ r`, then
`a` covers all of `q`. -/
theorem append_no_elem_len {q r a d : List Nat} {x : Nat}
    (heq : q ++ r = a ++ (x :: d)) (hx : x ∉ q) : q.length ≤ a.length := by
  by_contra hlt
  push_neg at hlt
  have h1 : (q ++ r)[a.length]? = q[a.length]? := by
    rw [List.getElem?_append]
    simp [hlt]
  have h2 : (a ++ (x :: d))[a.length]? = some x := by
    rw [List.getElem?_append_right (Nat.le_refl _)]
    simp
  rw [heq, h2] at h1
  obtain ⟨hlen, hval⟩ := List.getElem?_eq_some.mp h1.symm
  exact hx (hval ▸ List.getElem_mem hlen)

/-- A dot inside the decomposition of the lowercased filename is a dot of
the filename itself. -/
theorem dot_at_of_decomp {f A L2 c2 : List Nat}
    (heq : lowerStr f = A ++ (L2 ++ c2))
    (hL2len : L2.length = 6) (hL2last : L2[5]? = some 46) :
    f[A.length + 5]? = some 46 := by
  have h1 : (lowerStr f)[A.length + 5]? = some 46 := by
    rw [heq, List.getElem?_append_right (by omega)]
    have h5 : A.length + 5 - A.length = 5 := by omega
    rw [h5, List.getElem?_append]
    simp [hL2len, hL2last]
  simp only [lowerStr] at h1
  rw [List.getElem?_map] at h1
  cases hf : f[A.length + 5]? with
  | none => rw [hf] at h1; cases h1
  | some d =>
    rw [hf] at h1
    simp only [Option.map_some', Option.some.injEq] at h1
    rw [lowerC_eq_dot h1]

/-- The first character of a filename whose lowercase starts with a non-dot
is itself not a dot. -/
theorem first_char_of_lower {f q r : List Nat} {q0 : Nat}
    (heq : lowerStr f = q ++ r) (hq0 : q[0]? = some q0) (hne : q0 ≠ 46) :
    ∃ d0, f[0]? = some d0 ∧ d0 ≠ 46 := by
  have hpos : 0 < q.length := by
    cases q with
    | nil => cases hq0
    | cons c cs => simp
  have h0 : (lowerStr f)[0]? = some q0 := by
    rw [heq, List.getElem?_append]
    simp [hpos, hq0]
  simp only [lowerStr] at h0
  rw [List.getElem?_map] at h0
  cases hf : f[0]? with
  | none => rw [hf] at h0; cases h0
  | some d =>
    rw [hf] at h0
    simp only [Option.map_some', Option.some.injEq] at h0
    refine ⟨d, rfl, fun hd => hne ?_⟩
    rw [← h0, hd]
    decide

/-- `rfindDot` returns a valid dot position. -/
theorem rfindDot_spec {s : List Nat} {j : Nat} (h : rfindDot s = some j) :
    j < s.length ∧ s[j]? = some 46 := by
  induction s generalizing j with
  | nil => cases h
  | cons c cs ih =>
    simp only [rfindDot] at h
    cases hr : rfindDot cs with
    | some k =>
      rw [hr] at h
      simp only [Option.some.injEq] at h
      obtain ⟨hlen, hdot⟩ := ih hr
      subst h
      exact ⟨by simp; omega, by simpa using hdot⟩
    | none =>
      rw [hr] at h
      simp only [] at h
      by_cases hc : c = 46
      · rw [if_pos (show (c == 46) = true by simp [hc])] at h
        simp only [Option.some.injEq] at h
        subst h
        exact ⟨by simp, by simp [hc]⟩
      · rw [if_neg (show ¬(c == 46) = true by simp [hc])] at h
        cases h

/-- `rfindDot` finds a position at least as late as any dot. -/
theorem rfindDot_ge {s : List Nat} {i : Nat} (h : s[i]? = some 46) :
    ∃ j, rfindDot s = some j ∧ i ≤ j := by
  induction s generalizing i with
  | nil => cases h
  | cons c cs ih =>
    cases i with
    | zero =>
      simp only [List.getElem?_cons_zero, Option.some.injEq] at h
      cases hr : rfindDot cs with
      | some k => exact ⟨k + 1, by simp [rfindDot, hr], by omega⟩
      | none => exact ⟨0, by simp [rfindDot, hr, h], Nat.le_refl 0⟩
    | succ i2 =>
      simp only [List.getElem?_cons_succ] at h
      obtain ⟨j2, hj2, hle⟩ := ih h
      exact ⟨j2 + 1, by simp [rfindDot, hj2], by omega⟩

/-- A filename with a dot at position `i` (and a non-dot first character)
keeps at least `i` characters in its extension-stripped stem. -/
theorem stem_len_ge {f : List Nat} {i : Nat} (hi : 0 < i)
    (hdot : f[i]? = some 46) (h0 : ∃ d0, f[0]? = some d0 ∧ d0 ≠ 46) :
    i ≤ (splitextStem f).length := by
  obtain ⟨d0, hf0, hd0⟩ := h0
  obtain ⟨j, hj, hij⟩ := rfindDot_ge hdot
  obtain ⟨hjlen, hjdot⟩ := rfindDot_spec hj
  unfold splitextStem
  rw [hj]
  simp only []
  have hany : ((f.take j).any fun c => c != 46) = true := by
    rw [List.any_eq_true]
    refine ⟨d0, ?_, by simp [hd0]⟩
    have h0j : 0 < j := Nat.lt_of_lt_of_le hi hij
    have htk : (f.take j)[0]? = some d0 := by
      rw [List.getElem?_take]
      simp [h0j, hf0]
    obtain ⟨hl, hv⟩ := List.getElem?_eq_some.mp htk
    exact hv ▸ List.getElem_mem hl
  rw [if_pos hany, List.length_take]
  omega

/-- Any filename accepted by an observation-id branch keeps at least 11
characters in its stem: the suffix glob forces `"_if"`/`"_de"` after the
6-character prefix `<prefix>000` and a dot at or after position 14. -/
theorem stem_ge_eleven {p f L1 L2 : List Nat}
    (hp : p = codes "frt" ∨ p = codes "hrl" ∨ p = codes "hrs")
    (hL1 : L1 = codes "_if" ∨ L1 = codes "_de")
    (hL2 : L2 = codes "_trr3." ∨ L2 = codes "_ddr1.")
    (hshort : startsWith (lowerStr f) (p ++ codes "000") = true)
    (hg : globMatch (42 :: (L1 ++ (42 :: (L2 ++ [42])))) (lowerStr f) = true) :
    11 ≤ (splitextStem f).length := by
  have hL1star : ∀ c ∈ L1, c ≠ 42 := by rcases hL1 with rfl | rfl <;> decide
  have hL2star : ∀ c ∈ L2, c ≠ 42 := by rcases hL2 with rfl | rfl <;> decide
  obtain ⟨a, b, c2, hdec⟩ := glob_decomp hL1star hL2star hg
  obtain ⟨r, hr⟩ := (startsWith_iff _ _).mp hshort
  obtain ⟨t1, hL1c, ht1len⟩ : ∃ t1, L1 = 95 :: t1 ∧ t1.length = 2 := by
    rcases hL1 with rfl | rfl
    · exact ⟨codes "if", by decide, by decide⟩
    · exact ⟨codes "de", by decide, by decide⟩
  have hqlen : (p ++ codes "000").length = 6 := by
    rcases hp with rfl | rfl | rfl <;> rfl
  have h95 : (95 : Nat) ∉ p ++ codes "000" := by
    rcases hp with rfl | rfl | rfl <;> decide
  have heq2 : (p ++ codes "000") ++ r = a ++ (95 :: (t1 ++ (b ++ (L2 ++ c2)))) := by
    rw [← hr, hdec, hL1c]
    simp [List.append_assoc]
  have ha : 6 ≤ a.length := hqlen ▸ append_no_elem_len heq2 h95
  have hL2len : L2.length = 6 := by rcases hL2 with rfl | rfl <;> rfl
  have hL2last : L2[5]? = some 46 := by rcases hL2 with rfl | rfl <;> decide
  have hdec2 : lowerStr f = (a ++ L1 ++ b) ++ (L2 ++ c2) := by
    rw [hdec]
    simp [List.append_assoc]
  have hdot := dot_at_of_decomp hdec2 hL2len hL2last
  have hq0 : ∃ q0, (p ++ codes "000")[0]? = some q0 ∧ q0 ≠ 46 := by
    rcases hp with rfl | rfl | rfl <;> exact ⟨_, rfl, by decide⟩
  obtain ⟨q0, hq0a, hq0b⟩ := hq0
  have h0 := first_char_of_lower hr hq0a hq0b
  have hL1len : L1.length = 3 := by rcases hL1 with rfl | rfl <;> rfl
  have hAlen : (a ++ L1 ++ b).length = a.length + 3 + b.length := by
    simp [List.length_append, hL1len]
    omega
  have hge := stem_len_ge
    (show 0 < (a ++ L1 ++ b).length + 5 by omega) hdot h0
  rw [hAlen] at hge
  omega

/-- Shape of any successful `_build_directory_path` result: prefix plus a
2-or-3-character slice, prefix plus a 4-or-5-character slice, and a
`DATA`/`DDR` leaf. -/
theorem build_shape {p f : List Nat} {segs : List (List Nat)}
    (hp : p = codes "frt" ∨ p = codes "hrl" ∨ p = codes "hrs")
    (h : build_directory_path p f = .ok segs) :
    ∃ t1 t2 t3, segs = [upperStr p ++ t1, upperStr p ++ t2, t3] ∧
      ((t1.length = 2 ∧ t2.length = 4) ∨ (t1.length = 3 ∧ t2.length = 5)) ∧
      (t3 = codes "DATA" ∨ t3 = codes "DDR") := by
  have hpatT : patTrr3 = 42 :: (codes "_if" ++ (42 :: (codes "_trr3." ++ [42]))) := rfl
  have hpatD : patDdr1 = 42 :: (codes "_de" ++ (42 :: (codes "_ddr1." ++ [42]))) := rfl
  unfold build_directory_path at h
  by_cases hlong : startsWith (lowerStr f) (p ++ codes "0000") = true
  · rw [if_pos hlong] at h
    have hshort : startsWith (lowerStr f) (p ++ codes "000") = true := by
      have hq : p ++ codes "0000" = (p ++ codes "000") ++ [48] := by
        rw [List.append_assoc]
        rfl
      rw [hq] at hlong
      exact startsWith_of_append _ _ _ hlong
    unfold suffix_dispatch at h
    by_cases hg1 : globMatch patTrr3 (lowerStr f) = true
    · rw [if_pos hg1] at h
      rw [hpatT] at hg1
      have hstem := stem_ge_eleven hp (Or.inl rfl) (Or.inl rfl) hshort hg1
      rw [Except.ok.injEq] at h
      refine ⟨upperStr (pySlice (splitextStem f) 7 9),
        upperStr (pySlice (splitextStem f) 7 11), codes "DATA",
        h.symm, Or.inl ⟨?_, ?_⟩, Or.inl rfl⟩
      · simp only [upperStr, pySlice, List.length_map, List.length_take,
          List.length_drop]
        omega
      · simp only [upperStr, pySlice, List.length_map, List.length_take,
          List.length_drop]
        omega
    · rw [if_neg hg1] at h
      by_cases hg2 : globMatch patDdr1 (lowerStr f) = true
      · rw [if_pos hg2] at h
        rw [hpatD] at hg2
        have hstem := stem_ge_eleven hp (Or.inr rfl) (Or.inr rfl) hshort hg2
        rw [Except.ok.injEq] at h
        refine ⟨upperStr (pySlice (splitextStem f) 7 9),
          upperStr (pySlice (splitextStem f) 7 11), codes "DDR",
          h.symm, Or.inl ⟨?_, ?_⟩, Or.inr rfl⟩
        · simp only [upperStr, pySlice, List.length_map, List.length_take,
            List.length_drop]
          omega
        · simp only [upperStr, pySlice, List.length_map, List.length_take,
            List.length_drop]
          omega
      · rw [if_neg hg2] at h
        cases h
  · rw [if_neg hlong] at h
    by_cases hshort : startsWith (lowerStr f) (p ++ codes "000") = true
    · rw [if_pos hshort] at h
      unfold suffix_dispatch at h
      by_cases hg1 : globMatch patTrr3 (lowerStr f) = true
      · rw [if_pos hg1] at h
        rw [hpatT] at hg1
        have hstem := stem_ge_eleven hp (Or.inl rfl) (Or.inl rfl) hshort hg1
        rw [Except.ok.injEq] at h
        refine ⟨upperStr (pySlice (splitextStem f) 6 9),
          upperStr (pySlice (splitextStem f) 6 11), codes "DATA",
          h.symm, Or.inr ⟨?_, ?_⟩, Or.inl rfl⟩
        · simp only [upperStr, pySlice, List.length_map, List.length_take,
            List.length_drop]
          omega
        · simp only [upperStr, pySlice, List.length_map, List.length_take,
            List.length_drop]
          omega
      · rw [if_neg hg1] at h
        by_cases hg2 : globMatch patDdr1 (lowerStr f) = true
        · rw [if_pos hg2] at h
          rw [hpatD] at hg2
          have hstem := stem_ge_eleven hp (Or.inr rfl) (Or.inr rfl) hshort hg2
          rw [Except.ok.injEq] at h
          refine ⟨upperStr (pySlice (splitextStem f) 6 9),
            upperStr (pySlice (splitextStem f) 6 11), codes "DDR",
            h.symm, Or.inr ⟨?_, ?_⟩, Or.inr rfl⟩
          · simp only [upperStr, pySlice, List.length_map, List.length_take,
              List.length_drop]
            omega
          · simp only [upperStr, pySlice, List.length_map, List.length_take,
              List.length_drop]
            omega
        · rw [if_neg hg2] at h
          cases h
    · rw [if_neg hshort] at h
      cases h

/-! ### Claim theorem: C2 (amended) -/

/-- C2 (amended): every accepted filename classifies to
`<PREFIX><sub>/<PREFIX><subsub>/<DATA|DDR>` where the first segment carries
exactly 2 (long form) or 3 (short form) characters after the uppercased
prefix and the second exactly 4 (long form) or 5 (short form). -/
theorem c2_path_shape_amended (f : List Nat) (segs : List (List Nat))
    (h : organize f = .ok segs) :
    ∃ P t1 t2 t3, (P = codes "FRT" ∨ P = codes "HRL" ∨ P = codes "HRS") ∧
      segs = [P ++ t1, P ++ t2, t3] ∧
      ((t1.length = 2 ∧ t2.length = 4) ∨ (t1.length = 3 ∧ t2.length = 5)) ∧
      (t3 = codes "DATA" ∨ t3 = codes "DDR") := by
  unfold organize at h
  by_cases h1 : startsWith (lowerStr f) (codes "frt") = true
  · rw [if_pos h1] at h
    obtain ⟨t1, t2, t3, hsegs, hlen, ht3⟩ := build_shape (Or.inl rfl) h
    exact ⟨upperStr (codes "frt"), t1, t2, t3, Or.inl rfl, hsegs, hlen, ht3⟩
  · rw [if_neg h1] at h
    by_cases h2 : startsWith (lowerStr f) (codes "hrl") = true
    · rw [if_pos h2] at h
      obtain ⟨t1, t2, t3, hsegs, hlen, ht3⟩ := build_shape (Or.inr (Or.inl rfl)) h
      exact ⟨upperStr (codes "hrl"), t1, t2, t3, Or.inr (Or.inl rfl), hsegs, hlen, ht3⟩
    · rw [if_neg h2] at h
      by_cases h3 : startsWith (lowerStr f) (codes "hrs") = true
      · rw [if_pos h3] at h
        obtain ⟨t1, t2, t3, hsegs, hlen, ht3⟩ :=
          build_shape (Or.inr (Or.inr rfl)) h
        exact ⟨upperStr (codes "hrs"), t1, t2, t3, Or.inr (Or.inr rfl),
          hsegs, hlen, ht3⟩
      · rw [if_neg h3] at h
        cases h

/-- C2 witness: the short-form filename `"HRL000123_DE45_DDR1.LBL"`,
classified to `["HRL123", "HRL123_D", "DDR"]` (3- and 5-character slices). -/
theorem c2_path_shape_amended_witness :
    ∃ P t1 t2 t3, (P = codes "FRT" ∨ P = codes "HRL" ∨ P = codes "HRS") ∧
      [codes "HRL123", codes "HRL123_D", codes "DDR"] = [P ++ t1, P ++ t2, t3] ∧
      ((t1.length = 2 ∧ t2.length = 4) ∨ (t1.length = 3 ∧ t2.length = 5)) ∧
      (t3 = codes "DATA" ∨ t3 = codes "DDR") :=
  c2_path_shape_amended (codes "HRL000123_DE45_DDR1.LBL")
    [codes "HRL123", codes "HRL123_D", codes "DDR"] (by rfl)

end PlanetaryFetch
